import Mathlib

/-!
Shallow embedding of `shared/src/ledger/events.rs` (ledger event model):
event kinds and levels, the event attribute map, the transaction-event
constructor, conversions to the consensus-engine wire format, and the
JSON attribute parser, together with proofs of the spec's claims.

`HashMap<String, String>` is embedded as an association list with unique
keys maintained by the insert operation; lookup returns the value of the
(unique) matching key, so the embedding is faithful to the map's
key-to-value semantics while keeping the iteration order explicit.
-/

/-- Association-list model of `HashMap<String, String>`: lookup. -/
def hmGet (m : List (String × String)) (k : String) : Option String :=
  match m with
  | [] => none
  | (k₀, v₀) :: rest => if k₀ = k then some v₀ else hmGet rest k

/-- Association-list model of `HashMap::insert`: overwrite the value of an
existing key in place, or append a new binding. -/
def hmInsert (m : List (String × String)) (k v : String) : List (String × String) :=
  match m with
  | [] => [(k, v)]
  | (k₀, v₀) :: rest => if k₀ = k then (k, v) :: rest else (k₀, v₀) :: hmInsert rest k v

/-- Model of writing through `HashMap::get_mut(k).unwrap()`: replaces the
value of an existing key and touches nothing else. -/
def hmSetValue (m : List (String × String)) (k v : String) : List (String × String) :=
  match m with
  | [] => []
  | (k₀, v₀) :: rest => if k₀ = k then (k, v) :: rest else (k₀, v₀) :: hmSetValue rest k v

/-- Model of `HashMap::contains_key`. -/
def hmContains (m : List (String × String)) (k : String) : Bool :=
  (hmGet m k).isSome




/-- Model of `EventLevel` from the source: block-scoped or transaction-scoped. -/
inductive EventLevel where
  | Block
  | Tx
  deriving Repr, DecidableEq

/-- Model of `EventType` from the source: the closed set of event kinds. -/
inductive EventType where
  | Accepted
  | Applied
  | Ibc (t : String)
  | Proposal
  deriving Repr, DecidableEq

/-- The `Display` implementation for `EventType`. -/
def EventType.render : EventType → String
  | .Accepted => "accepted"
  | .Applied => "applied"
  | .Ibc t => t
  | .Proposal => "proposal"

/-- Model of `Event` from the source: kind, level and the key/value attribute map. -/
structure Event where
  event_type : EventType
  level : EventLevel
  attributes : List (String × String)
  deriving Repr, DecidableEq

/-- Model of `Event::contains_key`. -/
def Event.contains_key (e : Event) (k : String) : Bool :=
  hmContains e.attributes k

/-- Model of `Event::get`: non-fatal lookup. -/
def Event.get (e : Event) (k : String) : Option String :=
  hmGet e.attributes k

/-- First phase of `IndexMut<&str> for Event`: auto-insert an empty string
value when the key is absent. -/
def Event.indexMutPrepare (e : Event) (k : String) : Event :=
  if hmContains e.attributes k then e
  else { e with attributes := hmInsert e.attributes k "" }

/-- Model of `event[k] = v` in the source: `index_mut` (auto-insert when absent)
followed by overwriting the value behind the returned mutable handle. -/
def Event.indexMutWrite (e : Event) (k v : String) : Event :=
  let e' := e.indexMutPrepare k
  { e' with attributes := hmSetValue e'.attributes k v }





/-- Modelled from the spec: hexadecimal digit characters used when a hash is
"rendered as a hex/display string". -/
def hexChar (d : Nat) : Char :=
  if d < 10 then Char.ofNat (48 + d) else Char.ofNat (87 + d)

/-- Modelled from the spec: big-endian hex digit list of a natural number. -/
def hexChars (n : Nat) : List Char :=
  if _h : n < 16 then [hexChar n]
  else hexChars (n / 16) ++ [hexChar (n % 16)]
decreasing_by exact Nat.div_lt_self (by omega) (by omega)


/-- Modelled from the spec: the `Display` rendering of a hash value
(`Hash::to_string`); `Hash` is not under `src/`. -/
def hashRender (n : Nat) : String := String.mk (hexChars n)


/-- Modelled from the spec: the raw placeholder header behind
`RawHeader::default()` ("an empty/raw placeholder header"); `RawHeader` is
not under `src/`. -/
structure RawHeader where
  tag : Nat
  deriving Repr, DecidableEq

/-- Modelled from the spec: `RawHeader::default()`. -/
def RawHeader.defaultRaw : RawHeader := ⟨0⟩

/-- Modelled from the spec: the transaction type discriminant (`TxType`,
not under `src/`): wrapper, decrypted and protocol carry payloads the
constructor never inspects, and raw carries its placeholder header. -/
inductive TxType where
  | Raw (header : RawHeader)
  | Wrapper (w : Nat)
  | Decrypted (d : Nat)
  | Protocol (p : Nat)
  deriving Repr, DecidableEq

/-- Injective numeric encoding of a `TxType`, feeding the modelled digest. -/
def TxType.encode : TxType → Nat
  | .Raw h => 4 * h.tag
  | .Wrapper w => 4 * w + 1
  | .Decrypted d => 4 * d + 2
  | .Protocol p => 4 * p + 3

/-- Modelled from the spec: a decoded transaction (`Tx`, not under `src/`),
abstracted as its header (the type discriminant) plus the remaining
sections. -/
structure Tx where
  header : TxType
  body : Nat
  deriving Repr, DecidableEq

/-- Modelled from the spec: `Tx::update_header` replaces the header and
keeps the rest of the transaction. -/
def Tx.update_header (tx : Tx) (h : TxType) : Tx := { tx with header := h }

/-- Modelled from the spec: `Tx::header_hash` digests the header (the spec
fixes only that the hash is recomputed from the current header, so the
digest is abstracted as an injective pairing with the rest of the tx). -/
def Tx.header_hash (tx : Tx) : Nat :=
  Nat.pair (TxType.encode tx.header) tx.body

/-- The rendered header hash, `tx.header_hash().to_string()`. -/
def Tx.headerHashString (tx : Tx) : String := hashRender tx.header_hash

/-- Model of `Event::new_tx_event`: the `_ => unreachable!()` arm is modelled as
`none` (a fatal error returns no event). -/
def Event.new_tx_event (tx : Tx) (height : Nat) : Option Event :=
  let base : Option Event :=
    match tx.header with
    | .Wrapper _ =>
        some (Event.indexMutWrite
          { event_type := .Accepted, level := .Tx, attributes := [] }
          "hash" tx.headerHashString)
    | .Decrypted _ =>
        some (Event.indexMutWrite
          { event_type := .Applied, level := .Tx, attributes := [] }
          "hash" (tx.update_header (TxType.Raw RawHeader.defaultRaw)).headerHashString)
    | .Protocol _ =>
        some (Event.indexMutWrite
          { event_type := .Applied, level := .Tx, attributes := [] }
          "hash" tx.headerHashString)
    | .Raw _ => none
  base.map fun e => (e.indexMutWrite "height" (toString height)).indexMutWrite "log" ""

/-- Whether the discriminant is one of the three the constructor accepts. -/
def TxType.isValidForTxEvent : TxType → Bool
  | .Wrapper _ => true
  | .Decrypted _ => true
  | .Protocol _ => true
  | .Raw _ => false

/-- Model of `EventAttribute` from `tendermint_proto::abci`. -/
structure EventAttribute where
  key : String
  value : String
  index : Bool
  deriving Repr, DecidableEq

/-- The consensus-engine wire event (`tendermint_proto::abci::Event`):
its `type` field and attribute list. -/
structure AbciEvent where
  event_type : String
  attributes : List EventAttribute
  deriving Repr, DecidableEq

/-- Model of `From<Event> for tendermint_proto::abci::Event`. -/
def Event.toAbci (e : Event) : AbciEvent :=
  { event_type := e.event_type.render,
    attributes := e.attributes.map fun kv =>
      { key := kv.1, value := kv.2, index := true } }

/-- The shape of `IbcEvent` the conversion consumes: its own event-type
string and its attribute map. -/
structure IbcEvent where
  event_type : String
  attributes : List (String × String)
  deriving Repr, DecidableEq

/-- Model of `From<IbcEvent> for Event`. -/
def Event.ofIbcEvent (i : IbcEvent) : Event :=
  { event_type := .Ibc i.event_type, level := .Tx, attributes := i.attributes }

/-- The shape of `ProposalEvent` the conversion consumes: its attribute
map. -/
structure ProposalEvent where
  attributes : List (String × String)
  deriving Repr, DecidableEq

/-- Model of `From<ProposalEvent> for Event`. -/
def Event.ofProposalEvent (p : ProposalEvent) : Event :=
  { event_type := .Proposal, level := .Block, attributes := p.attributes }

/-- JSON values as consumed by the attribute parser (`serde_json::Value`),
with numbers as integers, which suffices for the shapes the parser
distinguishes. -/
inductive Json where
  | null
  | bool (b : Bool)
  | num (n : Int)
  | str (s : String)
  | arr (xs : List Json)
  | obj (fields : List (String × Json))

/-- Field lookup on the field list of a JSON object. -/
def jsonField (fields : List (String × Json)) (k : String) : Option Json :=
  match fields with
  | [] => none
  | (k₀, v₀) :: rest => if k₀ = k then some v₀ else jsonField rest k

/-- Model of `serde_json::Value::get(key)`: field lookup, `none` on non-objects and
missing fields. -/
def Json.getField (j : Json) (k : String) : Option Json :=
  match j with
  | .obj fields => jsonField fields k
  | _ => none

/-- Model of `serde_json::from_value::<Vec<Value>>`: succeeds exactly on arrays. -/
def Json.asArr : Json → Option (List Json)
  | .arr xs => some xs
  | _ => none

/-- Model of `serde_json::from_value::<String>`: succeeds exactly on strings. -/
def Json.asStr : Json → Option String
  | .str s => some s
  | _ => none

/-- String escaping for the compact serializer model. -/
def escapeChar (c : Char) : List Char :=
  if c = '"' then ['\\', '"']
  else if c = '\\' then ['\\', '\\']
  else [c]

/-- A JSON string literal with its quotes, escaped. -/
def quoteString (s : String) : String :=
  "\"" ++ String.mk (s.data.map escapeChar).flatten ++ "\""

/-- Model of `serde_json::to_string` (compact rendering); it is only used
to build the context carried by the `MissingKey`/`MissingValue` errors. -/
def jsonToString : Json → String
  | .null => "null"
  | .bool true => "true"
  | .bool false => "false"
  | .num n => toString n
  | .str s => quoteString s
  | .arr xs => "[" ++ String.intercalate "," (xs.attach.map fun x => jsonToString x.1) ++ "]"
  | .obj fs => "\x7b" ++ String.intercalate ","
      (fs.attach.map fun kv => quoteString kv.1.1 ++ ":" ++ jsonToString kv.1.2) ++ "\x7d"
decreasing_by
  · have h₁ := List.sizeOf_lt_of_mem x.2
    simp only [Json.arr.sizeOf_spec]
    omega
  · have h₁ := List.sizeOf_lt_of_mem kv.2
    have h₂ : sizeOf kv.1.2 < sizeOf kv.1 := by
      obtain ⟨⟨a, b⟩, hm⟩ := kv
      simp
    simp only [Json.obj.sizeOf_spec]
    omega

/-- Outcome of the attribute parser: success, the three recoverable errors
of the `Error` enum, or a fatal panic (the `.unwrap()` calls on serde
deserialization inside `try_from`). -/
inductive ParseResult where
  | ok (attrs : List (String × String))
  | errMissingAttributes
  | errMissingKey (context : String)
  | errMissingValue (context : String)
  | panic
  deriving Repr, DecidableEq

/-- The record loop of `TryFrom<&serde_json::Value> for Attributes`: for
each record the key is fetched (`MissingKey` when absent) and deserialized
as a string (panic otherwise), then the value likewise (`MissingValue` /
panic), and the pair is inserted (last write wins). -/
def attributesLoop : List Json → List (String × String) → ParseResult
  | [], acc => .ok acc
  | attr :: rest, acc =>
    match attr.getField "key" with
    | none => .errMissingKey (jsonToString attr)
    | some kj =>
      match kj.asStr with
      | none => .panic
      | some k =>
        match attr.getField "value" with
        | none => .errMissingValue (jsonToString attr)
        | some vj =>
          match vj.asStr with
          | none => .panic
          | some v => attributesLoop rest (hmInsert acc k v)

/-- Model of `TryFrom<&serde_json::Value> for Attributes`: fetch `attributes`
(`MissingAttributes` when absent), deserialize it as a sequence (panic
otherwise), then run the record loop on an empty map. -/
def attributesTryFrom (json : Json) : ParseResult :=
  match json.getField "attributes" with
  | none => .errMissingAttributes
  | some av =>
    match av.asArr with
    | none => .panic
    | some attrs => attributesLoop attrs []

/-- A subscription JSON carrying a list of wire attribute triples as parser
input: each triple becomes a record with `key` and `value` fields. -/
def wireJson (ts : List EventAttribute) : Json :=
  Json.obj [("attributes", Json.arr (ts.map fun t =>
    Json.obj [("key", Json.str t.key), ("value", Json.str t.value)]))]

/-- The wire attribute triples of an attribute map, as produced by
`Event.toAbci`. -/
def toWireAttrs (m : List (String × String)) : List EventAttribute :=
  m.map fun kv => { key := kv.1, value := kv.2, index := true }

/-- The successful parse of one attribute record: a present `key` field
deserializing as a string together with a present `value` field
deserializing as a string. -/
def recordParses (attr : Json) : Option (String × String) :=
  match attr.getField "key" with
  | none => none
  | some kj =>
    match kj.asStr with
    | none => none
    | some k =>
      match attr.getField "value" with
      | none => none
      | some vj =>
        match vj.asStr with
        | none => none
        | some v => some (k, v)

/-- A record whose `key` and `value` fields, when present, are JSON
strings (so its serde string deserializations cannot panic). -/
def recordWellTyped (attr : Json) : Prop :=
  (∀ kj, attr.getField "key" = some kj → ∃ s, kj = Json.str s) ∧
  (∀ vj, attr.getField "value" = some vj → ∃ s, vj = Json.str s)

/-- Parser input whose `attributes` field, when present, is a sequence of
well-typed records (so no serde deserialization inside `try_from` can
panic). -/
def parserInputWellShaped (j : Json) : Prop :=
  ∀ av, j.getField "attributes" = some av →
    ∃ xs, av = Json.arr xs ∧ ∀ a ∈ xs, recordWellTyped a

/-- The map produced by inserting a list of pairs into an accumulator,
exactly as the parser's record loop does. -/
def hmInsertAll (acc : List (String × String)) (l : List (String × String)) :
    List (String × String) :=
  l.foldl (fun m kv => hmInsert m kv.1 kv.2) acc
theorem hmGet_hmInsert (m : List (String × String)) (k v k' : String) :
    hmGet (hmInsert m k v) k' = if k = k' then some v else hmGet m k' := by
  induction m with
  | nil => simp [hmInsert, hmGet]
  | cons p rest ih =>
    obtain ⟨k₀, v₀⟩ := p
    by_cases h₀ : k₀ = k
    · subst h₀
      by_cases h₁ : k₀ = k' <;> simp [hmInsert, hmGet, h₁]
    · by_cases h₁ : k₀ = k'
      · have h₂ : ¬(k = k') := fun h₂ => h₀ (h₂ ▸ h₁)
        have h₃ : ¬(k' = k) := fun hc => h₂ hc.symm
        simp [hmInsert, hmGet, h₀, h₁, h₂, h₃]
      · simp [hmInsert, hmGet, h₀, h₁, ih]

theorem hmGet_hmSetValue_same (m : List (String × String)) (k v : String)
    (h : (hmGet m k).isSome) : hmGet (hmSetValue m k v) k = some v := by
  induction m with
  | nil => simp [hmGet] at h
  | cons p rest ih =>
    obtain ⟨k₀, v₀⟩ := p
    by_cases h₀ : k₀ = k
    · simp [hmSetValue, hmGet, h₀]
    · simp [hmGet, h₀] at h
      simp [hmSetValue, hmGet, h₀, ih h]

theorem hmGet_hmSetValue_other (m : List (String × String)) (k v k' : String)
    (h : k' ≠ k) : hmGet (hmSetValue m k v) k' = hmGet m k' := by
  induction m with
  | nil => simp [hmSetValue]
  | cons p rest ih =>
    obtain ⟨k₀, v₀⟩ := p
    by_cases h₀ : k₀ = k
    · subst h₀
      have h₂ : ¬(k₀ = k') := fun hc => h hc.symm
      simp [hmSetValue, hmGet, h₂]
    · simp [hmSetValue, hmGet, h₀, ih]

theorem indexMutWrite_get_same (e : Event) (k v : String) :
    (e.indexMutWrite k v).get k = some v := by
  unfold Event.indexMutWrite Event.indexMutPrepare Event.get
  by_cases h : hmContains e.attributes k
  · simp only [h, if_pos]
    exact hmGet_hmSetValue_same _ _ _ h
  · simp only [h, if_neg, Bool.false_eq_true, not_false_iff]
    apply hmGet_hmSetValue_same
    simp [hmGet_hmInsert]

theorem indexMutWrite_get_other (e : Event) (k v k' : String) (h : k' ≠ k) :
    (e.indexMutWrite k v).get k' = e.get k' := by
  unfold Event.indexMutWrite Event.indexMutPrepare Event.get
  by_cases hc : hmContains e.attributes k
  · simp only [hc, if_pos]
    exact hmGet_hmSetValue_other _ _ _ _ h
  · simp only [hc, if_neg, Bool.false_eq_true, not_false_iff]
    rw [hmGet_hmSetValue_other _ _ _ _ h, hmGet_hmInsert]
    have h₂ : ¬(k = k') := fun hk => h hk.symm
    simp [h₂]

theorem indexMutWrite_event_type (e : Event) (k v : String) :
    (e.indexMutWrite k v).event_type = e.event_type := by
  unfold Event.indexMutWrite Event.indexMutPrepare
  by_cases hc : hmContains e.attributes k <;> simp [hc]

theorem indexMutWrite_level (e : Event) (k v : String) :
    (e.indexMutWrite k v).level = e.level := by
  unfold Event.indexMutWrite Event.indexMutPrepare
  by_cases hc : hmContains e.attributes k <;> simp [hc]

theorem hexChars_ne_nil (n : Nat) : hexChars n ≠ [] := by
  unfold hexChars
  split <;> simp

theorem hashRender_ne_empty (n : Nat) : hashRender n ≠ "" := by
  intro h
  have h₁ := congrArg String.data h
  exact hexChars_ne_nil n h₁

theorem attributesLoop_cons_ok (a : Json) (rest : List Json)
    (acc : List (String × String)) (k v : String)
    (h : recordParses a = some (k, v)) :
    attributesLoop (a :: rest) acc = attributesLoop rest (hmInsert acc k v) := by
  cases hk : a.getField "key" with
  | none => simp [recordParses, hk] at h
  | some kj =>
    cases hks : kj.asStr with
    | none => simp [recordParses, hk, hks] at h
    | some k₀ =>
      cases hv : a.getField "value" with
      | none => simp [recordParses, hk, hks, hv] at h
      | some vj =>
        cases hvs : vj.asStr with
        | none => simp [recordParses, hk, hks, hv, hvs] at h
        | some v₀ =>
          simp [recordParses, hk, hks, hv, hvs] at h
          obtain ⟨rfl, rfl⟩ := h
          simp [attributesLoop, hk, hks, hv, hvs]

theorem attributesLoop_cons_missingKey (a : Json) (rest : List Json)
    (acc : List (String × String)) (h : a.getField "key" = none) :
    attributesLoop (a :: rest) acc = ParseResult.errMissingKey (jsonToString a) := by
  simp [attributesLoop, h]

theorem attributesLoop_cons_missingValue (a : Json) (rest : List Json)
    (acc : List (String × String)) (kj : Json) (k : String)
    (hk : a.getField "key" = some kj) (hks : kj.asStr = some k)
    (hv : a.getField "value" = none) :
    attributesLoop (a :: rest) acc = ParseResult.errMissingValue (jsonToString a) := by
  simp [attributesLoop, hk, hks, hv]

theorem attributesLoop_append (pre rest : List Json)
    (acc : List (String × String))
    (h : ∀ a ∈ pre, (recordParses a).isSome) :
    ∃ acc', attributesLoop (pre ++ rest) acc = attributesLoop rest acc' := by
  induction pre generalizing acc with
  | nil => exact ⟨acc, rfl⟩
  | cons a pre' ih =>
    have ha : (recordParses a).isSome := h a (by simp)
    obtain ⟨⟨k, v⟩, hkv⟩ := Option.isSome_iff_exists.mp ha
    rw [List.cons_append, attributesLoop_cons_ok a _ acc k v hkv]
    exact ih _ (fun a' ha' => h a' (by simp [ha']))

theorem attributesLoop_ne_missingAttrs (l : List Json)
    (acc : List (String × String)) :
    attributesLoop l acc ≠ ParseResult.errMissingAttributes := by
  induction l generalizing acc with
  | nil => simp [attributesLoop]
  | cons a rest ih =>
    unfold attributesLoop
    cases hk : a.getField "key" with
    | none => simp [hk]
    | some kj =>
      cases hks : kj.asStr with
      | none => simp [hk, hks]
      | some k =>
        cases hv : a.getField "value" with
        | none => simp [hk, hks, hv]
        | some vj =>
          cases hvs : vj.asStr with
          | none => simp [hk, hks, hv, hvs]
          | some v =>
            simp only [hk, hks, hv, hvs]
            exact ih _

theorem attributesLoop_no_panic (l : List Json) (acc : List (String × String))
    (h : ∀ a ∈ l, recordWellTyped a) :
    attributesLoop l acc ≠ ParseResult.panic := by
  induction l generalizing acc with
  | nil => simp [attributesLoop]
  | cons a rest ih =>
    have ha : recordWellTyped a := h a (by simp)
    unfold attributesLoop
    cases hk : a.getField "key" with
    | none => simp [hk]
    | some kj =>
      obtain ⟨s, rfl⟩ := ha.1 kj hk
      cases hv : a.getField "value" with
      | none => simp [hk, hv, Json.asStr]
      | some vj =>
        obtain ⟨s', rfl⟩ := ha.2 vj hv
        simp only [hk, hv, Json.asStr]
        exact ih _ (fun a' ha' => h a' (by simp [ha']))

theorem hmGet_eq_none_iff (l : List (String × String)) (k : String) :
    hmGet l k = none ↔ k ∉ l.map Prod.fst := by
  induction l with
  | nil => simp [hmGet]
  | cons p rest ih =>
    obtain ⟨k₀, v₀⟩ := p
    by_cases h₀ : k₀ = k
    · subst h₀
      simp [hmGet]
    · have h₁ : ¬(k = k₀) := fun hc => h₀ hc.symm
      simp [hmGet, h₀, h₁, ih]

theorem hmGet_hmInsertAll (l : List (String × String))
    (init : List (String × String)) (k : String)
    (h : (l.map Prod.fst).Nodup) :
    hmGet (hmInsertAll init l) k =
      match hmGet l k with
      | some v => some v
      | none => hmGet init k := by
  induction l generalizing init with
  | nil => simp [hmInsertAll, hmGet]
  | cons p rest ih =>
    obtain ⟨k₀, v₀⟩ := p
    simp only [List.map_cons, List.nodup_cons] at h
    have step : hmInsertAll init ((k₀, v₀) :: rest) =
        hmInsertAll (hmInsert init k₀ v₀) rest := rfl
    rw [step, ih _ h.2]
    by_cases h₀ : k₀ = k
    · subst h₀
      have hrest : hmGet rest k₀ = none :=
        (hmGet_eq_none_iff rest k₀).mpr h.1
      simp [hrest, hmGet, hmGet_hmInsert]
    · simp only [hmGet, h₀, if_neg, hmGet_hmInsert]
      cases hmGet rest k <;> simp [h₀]

theorem hmGet_perm (l₁ l₂ : List (String × String)) (h : l₁.Perm l₂) :
    (l₂.map Prod.fst).Nodup → ∀ k, hmGet l₁ k = hmGet l₂ k := by
  induction h with
  | nil => exact fun _ _ => rfl
  | cons x h' ih =>
    intro hn k
    obtain ⟨k₀, v₀⟩ := x
    simp only [List.map_cons, List.nodup_cons] at hn
    simp [hmGet, ih hn.2 k]
  | swap x y l =>
    intro hn k
    obtain ⟨ka, va⟩ := x
    obtain ⟨kb, vb⟩ := y
    simp only [List.map_cons, List.nodup_cons, List.mem_cons] at hn
    by_cases h₁ : ka = k
    · subst h₁
      have h₂ : ¬(kb = ka) := fun hc => hn.1 (Or.inl hc.symm)
      simp [hmGet, h₂]
    · by_cases h₂ : kb = k <;> simp [hmGet, h₁, h₂]
  | trans h₁ h₂ ih₁ ih₂ =>
    intro hn k
    have hn₂ : _ := (List.Perm.nodup_iff (h₂.map Prod.fst)).mpr hn
    rw [ih₁ hn₂ k, ih₂ hn k]

theorem attributesLoop_records (l : List (String × String))
    (acc : List (String × String)) :
    attributesLoop
      (l.map fun kv => Json.obj [("key", Json.str kv.1), ("value", Json.str kv.2)])
      acc = ParseResult.ok (hmInsertAll acc l) := by
  induction l generalizing acc with
  | nil => rfl
  | cons kv rest ih =>
    have hrec : recordParses
        (Json.obj [("key", Json.str kv.1), ("value", Json.str kv.2)]) =
        some (kv.1, kv.2) := by
      simp [recordParses, Json.getField, jsonField, Json.asStr]
    rw [List.map_cons, attributesLoop_cons_ok _ _ acc kv.1 kv.2 hrec]
    exact ih _

/-- C6: converting an Event into the consensus-engine wire representation
yields a `type` field equal to the canonical string rendering of its kind
(Accepted as "accepted", Applied as "applied", Proposal as "proposal", and
Ibc(s) as s itself, unprefixed) and an attribute list with exactly one
(key, value, index=true) triple per entry of its attribute map. -/
theorem C6_toAbci_shape (e : Event) :
    (e.toAbci).event_type = e.event_type.render ∧
    (e.toAbci).attributes =
      e.attributes.map (fun kv => { key := kv.1, value := kv.2, index := true }) ∧
    EventType.render EventType.Accepted = "accepted" ∧
    EventType.render EventType.Applied = "applied" ∧
    EventType.render EventType.Proposal = "proposal" ∧
    ∀ s, EventType.render (EventType.Ibc s) = s :=
  ⟨rfl, rfl, rfl, rfl, rfl, fun _ => rfl⟩

/-- C7: converting an IBC effect record yields kind Ibc(the effect's own
event-type string), level Tx, and the effect's attribute map unchanged;
converting a proposal-execution effect record yields kind Proposal, level
Block, and the effect's attribute map unchanged; both conversions are
total. -/
theorem C7_effect_conversions (i : IbcEvent) (p : ProposalEvent) :
    (Event.ofIbcEvent i).event_type = EventType.Ibc i.event_type ∧
    (Event.ofIbcEvent i).level = EventLevel.Tx ∧
    (Event.ofIbcEvent i).attributes = i.attributes ∧
    (Event.ofProposalEvent p).event_type = EventType.Proposal ∧
    (Event.ofProposalEvent p).level = EventLevel.Block ∧
    (Event.ofProposalEvent p).attributes = p.attributes :=
  ⟨rfl, rfl, rfl, rfl, rfl, rfl⟩

/-- C8: writing a value through the mutable index at a previously absent
key results in a state where the non-fatal `get` returns the written value
and `contains_key` returns true. -/
theorem C8_write_then_read (e : Event) (k v : String) (_h : e.get k = none) :
    (e.indexMutWrite k v).get k = some v ∧
    (e.indexMutWrite k v).contains_key k = true := by
  refine ⟨indexMutWrite_get_same e k v, ?_⟩
  have h₁ := indexMutWrite_get_same e k v
  unfold Event.contains_key hmContains
  unfold Event.get at h₁
  rw [h₁]
  rfl

/-- Witness for C8 at a concrete event and key. -/
theorem C8_witness :
    (({ event_type := EventType.Accepted, level := EventLevel.Tx,
        attributes := [] } : Event).indexMutWrite "code" "0").get "code" = some "0" ∧
    (({ event_type := EventType.Accepted, level := EventLevel.Tx,
        attributes := [] } : Event).indexMutWrite "code" "0").contains_key "code" = true :=
  C8_write_then_read _ "code" "0" rfl

/-- C10: writing through the mutable index at a key already present leaves
the stored map untouched at the moment the mutable handle is returned (no
reset to the empty string), and the subsequent overwrite affects no entry
other than the written key. -/
theorem C10_write_present_frame (e : Event) (k v : String)
    (h : (e.get k).isSome = true) :
    e.indexMutPrepare k = e ∧
    ∀ k', k' ≠ k → (e.indexMutWrite k v).get k' = e.get k' := by
  constructor
  · unfold Event.indexMutPrepare hmContains
    unfold Event.get at h
    simp [h]
  · exact fun k' hk => indexMutWrite_get_other e k v k' hk

/-- Witness for C10 at a concrete event holding the key already. -/
theorem C10_witness :
    ({ event_type := EventType.Accepted, level := EventLevel.Tx,
       attributes := [("hash", "h1"), ("log", "x")] } : Event).indexMutPrepare "hash" =
      { event_type := EventType.Accepted, level := EventLevel.Tx,
        attributes := [("hash", "h1"), ("log", "x")] } ∧
    (({ event_type := EventType.Accepted, level := EventLevel.Tx,
        attributes := [("hash", "h1"), ("log", "x")] } : Event).indexMutWrite
          "hash" "h2").get "log" =
      ({ event_type := EventType.Accepted, level := EventLevel.Tx,
         attributes := [("hash", "h1"), ("log", "x")] } : Event).get "log" :=
  ⟨(C10_write_present_frame
      { event_type := EventType.Accepted, level := EventLevel.Tx,
        attributes := [("hash", "h1"), ("log", "x")] } "hash" "h2" rfl).1,
   (C10_write_present_frame
      { event_type := EventType.Accepted, level := EventLevel.Tx,
        attributes := [("hash", "h1"), ("log", "x")] } "hash" "h2" rfl).2 "log" (by decide)⟩

/-- C9: for a transaction whose discriminant is not wrapper, decrypted or
protocol the constructor fails fatally (modelled as returning no event);
for the three valid discriminants an event is always returned. -/
theorem C9_unreachable_arm (tx : Tx) (h : Nat) :
    (tx.header.isValidForTxEvent = false → Event.new_tx_event tx h = none) ∧
    (tx.header.isValidForTxEvent = true →
      (Event.new_tx_event tx h).isSome = true) := by
  obtain ⟨header, body⟩ := tx
  cases header with
  | Raw r =>
    exact ⟨fun _ => rfl, fun hc => by simp [TxType.isValidForTxEvent] at hc⟩
  | Wrapper w =>
    exact ⟨fun hc => by simp [TxType.isValidForTxEvent] at hc, fun _ => rfl⟩
  | Decrypted d =>
    exact ⟨fun hc => by simp [TxType.isValidForTxEvent] at hc, fun _ => rfl⟩
  | Protocol p =>
    exact ⟨fun hc => by simp [TxType.isValidForTxEvent] at hc, fun _ => rfl⟩

/-- Witness for C9 at a raw and a protocol transaction. -/
theorem C9_witness :
    Event.new_tx_event { header := TxType.Raw ⟨7⟩, body := 3 } 5 = none ∧
    (Event.new_tx_event { header := TxType.Protocol 2, body := 3 } 5).isSome = true :=
  ⟨(C9_unreachable_arm { header := TxType.Raw ⟨7⟩, body := 3 } 5).1 rfl,
   (C9_unreachable_arm { header := TxType.Protocol 2, body := 3 } 5).2 rfl⟩

/-- C1: for every transaction with a valid discriminant, the kind and the
`hash` attribute of `new_tx_event` are determined by the discriminant: a
wrapper yields Accepted with the rendered header hash, a decrypted yields
Applied with the header hash recomputed after replacing the header with
the default raw placeholder header, and a protocol yields Applied with the
rendered header hash directly. -/
theorem C1_new_tx_event_kind_and_hash (tx : Tx) (h : Nat) :
    (∀ w, tx.header = TxType.Wrapper w →
      ∃ e, Event.new_tx_event tx h = some e ∧
        e.event_type = EventType.Accepted ∧
        e.get "hash" = some tx.headerHashString) ∧
    (∀ d, tx.header = TxType.Decrypted d →
      ∃ e, Event.new_tx_event tx h = some e ∧
        e.event_type = EventType.Applied ∧
        e.get "hash" =
          some (tx.update_header (TxType.Raw RawHeader.defaultRaw)).headerHashString) ∧
    (∀ p, tx.header = TxType.Protocol p →
      ∃ e, Event.new_tx_event tx h = some e ∧
        e.event_type = EventType.Applied ∧
        e.get "hash" = some tx.headerHashString) := by
  obtain ⟨header, body⟩ := tx
  cases header with
  | Raw r =>
    refine ⟨?_, ?_, ?_⟩ <;> · intro x hx; cases hx
  | Wrapper w =>
    refine ⟨fun _ _ => ⟨_, rfl, rfl, rfl⟩, fun d hd => ?_, fun p hp => ?_⟩
    · cases hd
    · cases hp
  | Decrypted d =>
    refine ⟨fun w hw => ?_, fun _ _ => ⟨_, rfl, rfl, rfl⟩, fun p hp => ?_⟩
    · cases hw
    · cases hp
  | Protocol p =>
    refine ⟨fun w hw => ?_, fun d hd => ?_, fun _ _ => ⟨_, rfl, rfl, rfl⟩⟩
    · cases hw
    · cases hd

/-- Witness for C1 at concrete wrapper, decrypted and protocol
transactions. -/
theorem C1_witness :
    (∃ e, Event.new_tx_event { header := TxType.Wrapper 1, body := 2 } 9 = some e ∧
      e.event_type = EventType.Accepted ∧
      e.get "hash" = some (Tx.headerHashString { header := TxType.Wrapper 1, body := 2 })) ∧
    (∃ e, Event.new_tx_event { header := TxType.Decrypted 1, body := 2 } 9 = some e ∧
      e.event_type = EventType.Applied ∧
      e.get "hash" = some ((Tx.update_header { header := TxType.Decrypted 1, body := 2 }
        (TxType.Raw RawHeader.defaultRaw)).headerHashString)) ∧
    (∃ e, Event.new_tx_event { header := TxType.Protocol 1, body := 2 } 9 = some e ∧
      e.event_type = EventType.Applied ∧
      e.get "hash" = some (Tx.headerHashString { header := TxType.Protocol 1, body := 2 })) :=
  ⟨(C1_new_tx_event_kind_and_hash { header := TxType.Wrapper 1, body := 2 } 9).1 1 rfl,
   (C1_new_tx_event_kind_and_hash { header := TxType.Decrypted 1, body := 2 } 9).2.1 1 rfl,
   (C1_new_tx_event_kind_and_hash { header := TxType.Protocol 1, body := 2 } 9).2.2 1 rfl⟩

/-- C2: for every transaction with a valid discriminant and every height,
`new_tx_event` returns an event whose level is Tx, whose attributes map
the key `height` to the decimal rendering of the height and the key `log`
to the empty string, and whose `hash` attribute is non-empty. -/
theorem C2_new_tx_event_common (tx : Tx) (h : Nat)
    (hv : tx.header.isValidForTxEvent = true) :
    ∃ e, Event.new_tx_event tx h = some e ∧
      e.level = EventLevel.Tx ∧
      e.get "height" = some (toString h) ∧
      e.get "log" = some "" ∧
      ∃ s, e.get "hash" = some s ∧ s ≠ "" := by
  obtain ⟨header, body⟩ := tx
  cases header with
  | Raw r => simp [TxType.isValidForTxEvent] at hv
  | Wrapper w => exact ⟨_, rfl, rfl, rfl, rfl, _, rfl, hashRender_ne_empty _⟩
  | Decrypted d => exact ⟨_, rfl, rfl, rfl, rfl, _, rfl, hashRender_ne_empty _⟩
  | Protocol p => exact ⟨_, rfl, rfl, rfl, rfl, _, rfl, hashRender_ne_empty _⟩

/-- Witness for C2 at a concrete decrypted transaction. -/
theorem C2_witness :
    ∃ e, Event.new_tx_event { header := TxType.Decrypted 4, body := 1 } 11 = some e ∧
      e.level = EventLevel.Tx ∧
      e.get "height" = some (toString 11) ∧
      e.get "log" = some "" ∧
      ∃ s, e.get "hash" = some s ∧ s ≠ "" :=
  C2_new_tx_event_common { header := TxType.Decrypted 4, body := 1 } 11 rfl

/-- C3: for every attribute map built from pairs with unique keys, and any
iteration order of its wire triples, converting to the wire representation
and parsing the triples back through the attribute parser succeeds and
reproduces the same key-to-value mapping. -/
theorem C3_wire_roundtrip (ps qs : List (String × String))
    (h₁ : (ps.map Prod.fst).Nodup) (h₂ : qs.Perm ps) :
    ∃ m, attributesTryFrom (wireJson (toWireAttrs qs)) = ParseResult.ok m ∧
      ∀ k, hmGet m k = hmGet ps k := by
  have hconv : attributesTryFrom (wireJson (toWireAttrs qs)) =
      attributesLoop (qs.map fun kv =>
        Json.obj [("key", Json.str kv.1), ("value", Json.str kv.2)]) [] := by
    simp only [attributesTryFrom, wireJson, toWireAttrs, Json.getField,
      jsonField, Json.asArr, List.map_map, if_pos]
    rfl
  rw [hconv, attributesLoop_records]
  refine ⟨hmInsertAll [] qs, rfl, fun k => ?_⟩
  have hq : (qs.map Prod.fst).Nodup :=
    (List.Perm.nodup_iff (h₂.map Prod.fst)).mpr h₁
  rw [hmGet_hmInsertAll qs [] k hq, ← hmGet_perm qs ps h₂ h₁ k]
  cases hcase : hmGet qs k with
  | some v => rfl
  | none => rfl

/-- Witness for C3 at a two-entry map parsed back in swapped order. -/
theorem C3_witness :
    ∃ m, attributesTryFrom (wireJson (toWireAttrs [("b", "2"), ("a", "1")])) =
        ParseResult.ok m ∧
      ∀ k, hmGet m k = hmGet [("a", "1"), ("b", "2")] k :=
  C3_wire_roundtrip [("a", "1"), ("b", "2")] [("b", "2"), ("a", "1")]
    (by decide) (List.Perm.swap ("a", "1") ("b", "2") [])

/-- C4 counterexample: when the `attributes` field is present but is not a
sequence (here: a number), the parser fails fatally (the serde `.unwrap()`
panics) instead of returning a success or one of the three recoverable
errors, refuting the claim as stated. -/
theorem C4_counterexample :
    attributesTryFrom (Json.obj [("attributes", Json.num 5)]) = ParseResult.panic ∧
    (∀ m, ParseResult.panic ≠ ParseResult.ok m) ∧
    ParseResult.panic ≠ ParseResult.errMissingAttributes ∧
    (∀ s, ParseResult.panic ≠ ParseResult.errMissingKey s) ∧
    (∀ s, ParseResult.panic ≠ ParseResult.errMissingValue s) :=
  ⟨rfl, fun _ h => ParseResult.noConfusion h, fun h => ParseResult.noConfusion h,
   fun _ h => ParseResult.noConfusion h, fun _ h => ParseResult.noConfusion h⟩

/-- C4 (amended): parsing terminates with success or one of the three
recoverable errors provided the `attributes` field, when present, is a
sequence and each record's `key` and `value` fields, when present, are
strings; otherwise the parser fails fatally on an internal unwrap. -/
theorem C4_amended_no_panic (j : Json) (h : parserInputWellShaped j) :
    attributesTryFrom j ≠ ParseResult.panic := by
  unfold attributesTryFrom
  cases hav : j.getField "attributes" with
  | none => simp
  | some av =>
    obtain ⟨xs, rfl, hxs⟩ := h av hav
    simp only [Json.asArr]
    exact attributesLoop_no_panic xs [] hxs

/-- Witness for the amended C4 at a concrete well-shaped input. -/
theorem C4_witness :
    attributesTryFrom (Json.obj [("attributes",
      Json.arr [Json.obj [("key", Json.str "a"), ("value", Json.str "1")]])]) ≠
      ParseResult.panic :=
  C4_amended_no_panic _ (by
    intro av hav
    injection hav with hav'
    refine ⟨_, hav'.symm, ?_⟩
    intro a ha
    rw [List.mem_singleton] at ha
    subst ha
    constructor
    · intro kj hk
      injection hk with hk'
      exact ⟨"a", hk'.symm⟩
    · intro vj hv
      injection hv with hv'
      exact ⟨"1", hv'.symm⟩)

/-- C5 counterexample: a record that has a `key` field (holding a number)
and lacks a `value` field makes the parser panic on the serde unwrap
instead of returning `MissingValue`, refuting the claim as stated. -/
theorem C5_counterexample :
    (Json.obj [("key", Json.num 5)]).getField "key" = some (Json.num 5) ∧
    (Json.obj [("key", Json.num 5)]).getField "value" = none ∧
    attributesTryFrom (Json.obj [("attributes",
      Json.arr [Json.obj [("key", Json.num 5)]])]) = ParseResult.panic ∧
    (∀ s, ParseResult.panic ≠ ParseResult.errMissingValue s) :=
  ⟨rfl, rfl, rfl, fun _ h => ParseResult.noConfusion h⟩

/-- C5 (amended): the parser returns MissingAttributes exactly when the
input object has no `attributes` field; when the first record not parsing
as a string pair lacks a `key` field it returns MissingKey carrying that
record's serialized rendering, and when that record's `key` field holds a
string but the `value` field is absent it returns MissingValue carrying
that record's serialized rendering (a `key` or `value` field present but
not a string instead panics). -/
theorem C5_amended_errors (fields : List (String × Json)) (rs pre rest : List Json)
    (r : Json) :
    (attributesTryFrom (Json.obj fields) = ParseResult.errMissingAttributes ↔
      jsonField fields "attributes" = none) ∧
    (jsonField fields "attributes" = some (Json.arr rs) →
      rs = pre ++ r :: rest →
      (∀ a ∈ pre, (recordParses a).isSome) →
      ((r.getField "key" = none →
          attributesTryFrom (Json.obj fields) =
            ParseResult.errMissingKey (jsonToString r)) ∧
       (∀ kj k, r.getField "key" = some kj → kj.asStr = some k →
          r.getField "value" = none →
          attributesTryFrom (Json.obj fields) =
            ParseResult.errMissingValue (jsonToString r)))) := by
  constructor
  · constructor
    · intro h
      cases hav : jsonField fields "attributes" with
      | none => rfl
      | some av =>
        exfalso
        unfold attributesTryFrom at h
        simp only [Json.getField, hav] at h
        cases has : av.asArr with
        | none =>
          rw [has] at h
          exact ParseResult.noConfusion h
        | some attrs =>
          rw [has] at h
          exact attributesLoop_ne_missingAttrs attrs [] h
    · intro h
      unfold attributesTryFrom
      simp [Json.getField, h]
  · intro hav hrs hpre
    have hred : attributesTryFrom (Json.obj fields) = attributesLoop rs [] := by
      unfold attributesTryFrom
      simp [Json.getField, hav, Json.asArr]
    subst hrs
    obtain ⟨acc', hacc⟩ := attributesLoop_append pre (r :: rest) [] hpre
    constructor
    · intro hk
      rw [hred, hacc, attributesLoop_cons_missingKey r rest acc' hk]
    · intro kj k hk hks hv
      rw [hred, hacc, attributesLoop_cons_missingValue r rest acc' kj k hk hks hv]

/-- Witness for the amended C5 at concrete inputs: a sequence whose second
record lacks `key`, a sequence whose record lacks `value`, and an object
without `attributes`. -/
theorem C5_witness :
    attributesTryFrom (Json.obj [("attributes",
        Json.arr [Json.obj [("key", Json.str "a"), ("value", Json.str "1")],
                  Json.obj [("value", Json.str "v")]])]) =
      ParseResult.errMissingKey (jsonToString (Json.obj [("value", Json.str "v")])) ∧
    attributesTryFrom (Json.obj [("attributes",
        Json.arr [Json.obj [("key", Json.str "k")]])]) =
      ParseResult.errMissingValue (jsonToString (Json.obj [("key", Json.str "k")])) ∧
    attributesTryFrom (Json.obj [("other", Json.null)]) =
      ParseResult.errMissingAttributes := by
  refine ⟨?_, ?_, ?_⟩
  · exact ((C5_amended_errors
      [("attributes", Json.arr [Json.obj [("key", Json.str "a"), ("value", Json.str "1")],
        Json.obj [("value", Json.str "v")]])]
      [Json.obj [("key", Json.str "a"), ("value", Json.str "1")],
        Json.obj [("value", Json.str "v")]]
      [Json.obj [("key", Json.str "a"), ("value", Json.str "1")]] []
      (Json.obj [("value", Json.str "v")])).2 rfl rfl
      (fun a ha => by rw [List.mem_singleton] at ha; subst ha; rfl)).1 rfl
  · exact ((C5_amended_errors
      [("attributes", Json.arr [Json.obj [("key", Json.str "k")]])]
      [Json.obj [("key", Json.str "k")]] [] []
      (Json.obj [("key", Json.str "k")])).2 rfl rfl
      (fun a ha => absurd ha (List.not_mem_nil a))).2
      (Json.str "k") "k" rfl rfl rfl
  · exact (C5_amended_errors [("other", Json.null)] [] [] [] Json.null).1.mpr rfl
